import Mathlib

/-!
Verification of the Red Dust Control Center streaming core.

This file gives a shallow embedding of the core data model and operations of
the repository (`core/waveform_model.py`, `core/playback_controller.py`,
`core/osc_manager.py`, `core/interactive_object.py`, `core/osc_object.py`,
`core/serial_object.py`) and proves properties of that embedding.

Modelling conventions:
* `UTCDateTime` values and floats are modelled as rationals (`ℚ`).
* Python `None` becomes `Option.none`; a non-finite sample (NaN/inf or a
  masked value) in a trace's data array is modelled as `Option.none`.
* Qt timers are modelled by a boolean "active" flag.
* The dictionary of sinks is an association list with (provably) unique keys.
* Methods that transmit data return, next to the successor state, the list of
  externally observable events (frames transmitted, signals emitted).
-/

/- The Batteries rational arithmetic operations are marked irreducible, which
blocks kernel evaluation of concrete states by `decide`/`rfl`; restore the
default reducibility (this does not change any definition). -/
set_option allowUnsafeReducibility true
attribute [semireducible] Rat.mul Rat.add Rat.sub Rat.inv Rat.ofScientific

namespace RedDust

/-! ## Generic association-list helpers (model of a Python `dict`) -/

/-- Lookup the value stored under a key. -/
def lookupKey {α : Type} (l : List (String × α)) (k : String) : Option α :=
  match l.find? (fun p => p.1 == k) with
  | some p => some p.2
  | none => none

/-- Replace the value stored under a key (other entries untouched). -/
def updateKey {α : Type} (l : List (String × α)) (k : String) (v : α) :
    List (String × α) :=
  l.map (fun p => if p.1 == k then (p.1, v) else p)

/-- Delete the entry stored under a key. -/
def eraseKey {α : Type} (l : List (String × α)) (k : String) :
    List (String × α) :=
  l.filter (fun p => !(p.1 == k))

/-- The list of keys of an association list. -/
def keysOf {α : Type} (l : List (String × α)) : List String :=
  l.map Prod.fst

/-! ## Rational helpers for Python numeric primitives -/

/-- Mathematical floor of a rational, as an integer. -/
def ratFloor (q : ℚ) : ℤ := q.num.ediv (q.den : ℤ)

/-- Mathematical ceiling of a rational, as an integer. -/
def ratCeil (q : ℚ) : ℤ := -(ratFloor (-q))

/-- Python `int(...)` applied to a float: truncation toward zero. -/
def pyInt (q : ℚ) : ℤ := if 0 ≤ q then ratFloor q else -(ratFloor (-q))

/-! ## InteractiveObject (`core/interactive_object.py`) -/

/-- `InteractiveObject.remap_value`: clamp the normalized input to `[0,1]`,
return `remap_min` when the range is degenerate, else map linearly onto
`[remap_min, remap_max]`. -/
def remap_value (remapMin remapMax v : ℚ) : ℚ :=
  let w := max 0 (min 1 v)
  if remapMax = remapMin then remapMin
  else remapMin + w * (remapMax - remapMin)

/-! ## PlaybackController (`core/playback_controller.py`) -/

/-- Playback state machine states. -/
inductive PBState
  | stopped
  | playing
  | paused
  deriving DecidableEq, Repr

/-- `MIN_LOOP_LENGTH` from `playback_controller.py`. -/
def MIN_LOOP_LENGTH : ℚ := 2

/-- State of a `PlaybackController`.  `timeRange` abstracts the bound
waveform model: `some (start, end)` when a model with a time range is bound,
`none` when no model is bound or the model has no time range. -/
structure PlaybackController where
  state : PBState
  speed : ℚ
  currentTime : Option ℚ
  loopEnabled : Bool
  loopStart : Option ℚ
  loopEnd : Option ℚ
  timerActive : Bool
  playbackStartTime : Option ℚ
  playbackStartPosition : Option ℚ
  timeRange : Option (ℚ × ℚ)
  deriving DecidableEq, Repr

/-- `PlaybackController.__init__`: stopped, speed 1, nothing set. -/
def initPB (tr : Option (ℚ × ℚ)) : PlaybackController :=
  { state := .stopped, speed := 1, currentTime := none,
    loopEnabled := false, loopStart := none, loopEnd := none,
    timerActive := false, playbackStartTime := none,
    playbackStartPosition := none, timeRange := tr }

/-- `PlaybackController.start`: no-op without a time range; otherwise
initialize the playhead if unset, record the anchor pair and go to
`playing`. -/
def startPB (s : PlaybackController) (now : ℚ) : PlaybackController :=
  match s.timeRange with
  | none => s
  | some (st, _) =>
    let ct : ℚ :=
      match s.currentTime with
      | some c => c
      | none =>
        match s.loopEnabled, s.loopStart with
        | true, some ls => ls
        | _, _ => st
    { s with currentTime := some ct, playbackStartTime := some now,
             playbackStartPosition := some ct, state := .playing,
             timerActive := true }

/-- `PlaybackController.pause`: only acts in the `playing` state. -/
def pausePB (s : PlaybackController) : PlaybackController :=
  match s.state with
  | .playing => { s with timerActive := false, state := .paused }
  | _ => s

/-- `PlaybackController.stop`: stop the tick timer, reset the playhead to the
loop start (when looping with a loop start set) or the range start, clear the
anchors, and go to `stopped`. -/
def stopPB (s : PlaybackController) : PlaybackController :=
  let ct : Option ℚ :=
    match s.timeRange with
    | none => s.currentTime
    | some (st, _) =>
      match s.loopEnabled, s.loopStart with
      | true, some ls => some ls
      | _, _ => some st
  { s with timerActive := false, currentTime := ct, state := .stopped,
           playbackStartTime := none, playbackStartPosition := none }

/-- `PlaybackController.set_speed`: clamp to `[0.1, 1000.0]`; while playing
(anchors available) refresh the anchor pair before applying the speed. -/
def set_speed (s : PlaybackController) (x now : ℚ) : PlaybackController :=
  let m := max (1/10) (min 1000 x)
  if s.state = PBState.playing ∧ s.playbackStartTime.isSome ∧
      s.currentTime.isSome then
    { s with playbackStartPosition := s.currentTime,
             playbackStartTime := some now, speed := m }
  else
    { s with speed := m }

/-- `PlaybackController.set_loop_range`: raise `ValueError` when the range is
shorter than `MIN_LOOP_LENGTH` seconds, else store it.  The length is computed
as in source: `(end - start) / 86400.0 * 86400.0`. -/
def set_loop_range (s : PlaybackController) (a b : ℚ) :
    Except Unit PlaybackController :=
  let loopLength := (b - a) / 86400 * 86400
  if loopLength < MIN_LOOP_LENGTH then Except.error ()
  else Except.ok { s with loopStart := some a, loopEnd := some b }

/-- The controller state observable after calling `set_loop_range`: on a
validation error the exception propagates and the state is unchanged. -/
def set_loop_range_state (s : PlaybackController) (a b : ℚ) :
    PlaybackController :=
  match set_loop_range s a b with
  | Except.ok s1 => s1
  | Except.error _ => s

/-- `PlaybackController.enable_loop`. -/
def enableLoopPB (s : PlaybackController) (b : Bool) : PlaybackController :=
  { s with loopEnabled := b }

/-- `PlaybackController.set_waveform_model`: rebind the model; when the new
model has a time range, move the playhead to its start. -/
def setWaveformModelPB (s : PlaybackController) (tr : Option (ℚ × ℚ)) :
    PlaybackController :=
  { s with timeRange := tr,
           currentTime :=
             match tr with
             | some (st, _) => some st
             | none => s.currentTime }

/-- `PlaybackController._update_playhead` (tick handler): recompute the
playhead from the anchor pair, wrap at the loop end or stop at the range
end. -/
def updatePlayhead (s : PlaybackController) (now : ℚ) : PlaybackController :=
  match s.currentTime, s.playbackStartTime, s.playbackStartPosition with
  | some _, some pst, some pos =>
    let newTime := pos + (now - pst) * s.speed
    match s.timeRange with
    | none => s
    | some (_, en) =>
      match s.loopEnabled, s.loopStart, s.loopEnd with
      | true, some ls, some lpEnd =>
        if newTime > lpEnd then
          { s with currentTime := some ls, playbackStartPosition := some ls,
                   playbackStartTime := some now }
        else { s with currentTime := some newTime }
      | _, _, _ =>
        if newTime > en then stopPB { s with currentTime := some en }
        else { s with currentTime := some newTime }
  | _, _, _ => s

/-- One externally triggered operation on a `PlaybackController`. -/
inductive PBStep : PlaybackController → PlaybackController → Prop
  | start {s : PlaybackController} (now : ℚ) : PBStep s (startPB s now)
  | pause {s : PlaybackController} : PBStep s (pausePB s)
  | stop {s : PlaybackController} : PBStep s (stopPB s)
  | speed {s : PlaybackController} (x now : ℚ) : PBStep s (set_speed s x now)
  | loopRange {s : PlaybackController} (a b : ℚ) :
      PBStep s (set_loop_range_state s a b)
  | loop {s : PlaybackController} (b : Bool) : PBStep s (enableLoopPB s b)
  | model {s : PlaybackController} (tr : Option (ℚ × ℚ)) :
      PBStep s (setWaveformModelPB s tr)
  | tick {s : PlaybackController} (now : ℚ) : PBStep s (updatePlayhead s now)

/-- Controller states reachable from a freshly constructed controller by any
sequence of operations. -/
inductive PBReachable : PlaybackController → Prop
  | init (tr : Option (ℚ × ℚ)) : PBReachable (initPB tr)
  | step {s s' : PlaybackController} :
      PBReachable s → PBStep s s' → PBReachable s'

/-! ## WaveformModel (`core/waveform_model.py`) -/

/-- One channel's trace: start time, sampling rate and sample data.  A data
entry `none` models a non-finite (NaN/inf/masked) sample. -/
structure Trace where
  starttime : ℚ
  samplingRate : ℚ
  data : List (Option ℚ)
  deriving DecidableEq, Repr

/-- ObsPy `trace.stats.endtime`: `starttime + (npts - 1) / sampling_rate`. -/
def Trace.endTime (tr : Trace) : ℚ :=
  tr.starttime + ((tr.data.length : ℚ) - 1) / tr.samplingRate

/-- State of a `WaveformModel`: the stream's channels (keyed by the channel
identifier), the active channel, percentile configuration, and the derived
normalization bounds. -/
structure WaveformModel where
  channels : List (String × Trace)
  activeChannel : Option String
  loPercentile : ℚ
  hiPercentile : ℚ
  normalizationMin : Option ℚ
  normalizationMax : Option ℚ
  deriving DecidableEq, Repr

/-- `WaveformModel._get_active_trace`. -/
def activeTrace (m : WaveformModel) : Option Trace :=
  match m.activeChannel with
  | some c => lookupKey m.channels c
  | none => none

/-- The valid samples of a trace: finite and strictly inside the sentinel
bounds `(-2147483640, 2147483640)`, as in `_recalculate_normalization`. -/
def validSamples (tr : Trace) : List ℚ :=
  (tr.data.filterMap id).filter
    (fun x => decide (-2147483640 < x) && decide (x < 2147483640))

/-- Insert a rational into an ascending list (helper for sorting). -/
def insSorted (x : ℚ) : List ℚ → List ℚ
  | [] => [x]
  | y :: ys => if x ≤ y then x :: y :: ys else y :: insSorted x ys

/-- Ascending insertion sort (model of numpy's ascending sort). -/
def sortAsc (l : List ℚ) : List ℚ := l.foldr insSorted []

/-- `np.percentile(xs, q)` with the default linear-interpolation definition:
with `h = (n-1)*q/100`, interpolate between the sorted values at positions
`⌊h⌋` and `⌈h⌉`. -/
def npPercentile (xs : List ℚ) (q : ℚ) : ℚ :=
  let s := sortAsc xs
  let n := s.length
  if n = 0 then 0
  else
    let h : ℚ := ((n : ℚ) - 1) * q / 100
    let lo := (ratFloor h).toNat
    let hi := (ratCeil h).toNat
    let a := s.getD lo 0
    let b := s.getD hi 0
    a + (h - ((ratFloor h : ℤ) : ℚ)) * (b - a)

/-- `WaveformModel._recalculate_normalization`: clear the bounds when there is
no active trace; collapse them to `[0,1]` when the data or its valid subset is
empty; otherwise take the configured percentiles of the valid samples,
swapping if inverted. -/
def recalculateNormalization (m : WaveformModel) : WaveformModel :=
  match activeTrace m with
  | none => { m with normalizationMin := none, normalizationMax := none }
  | some tr =>
    if tr.data.length = 0 then
      { m with normalizationMin := some 0, normalizationMax := some 1 }
    else
      let vd := validSamples tr
      if vd.length = 0 then
        { m with normalizationMin := some 0, normalizationMax := some 1 }
      else
        let lo := npPercentile vd m.loPercentile
        let hi := npPercentile vd m.hiPercentile
        if lo > hi then
          { m with normalizationMin := some hi, normalizationMax := some lo }
        else
          { m with normalizationMin := some lo, normalizationMax := some hi }

/-- `WaveformModel.set_active_channel`: silently ignore unknown channels, else
set active and recompute the normalization. -/
def set_active_channel (m : WaveformModel) (c : String) : WaveformModel :=
  if (lookupKey m.channels c).isSome then
    recalculateNormalization { m with activeChannel := some c }
  else m

/-- Insert a string into a lexicographically ascending list. -/
def insSortedStr (x : String) : List String → List String
  | [] => [x]
  | y :: ys => if x < y then x :: y :: ys else y :: insSortedStr x ys

/-- Ascending sort of channel identifiers (model of `sorted(...)`). -/
def sortStr (l : List String) : List String := l.foldr insSortedStr []

/-- `WaveformModel.set_stream`: replace the channel data, re-extract the
sorted channel identifiers, activate the first one if any, else clear the
active channel and the bounds. -/
def set_stream (m : WaveformModel) (chs : List (String × Trace)) :
    WaveformModel :=
  let m1 := { m with channels := chs }
  match sortStr (keysOf chs).dedup with
  | [] => { m1 with activeChannel := none, normalizationMin := none,
                    normalizationMax := none }
  | c :: _ => set_active_channel m1 c

/-- `WaveformModel.update_scaling`: reject invalid percentile ranges, else
store them and recompute the normalization. -/
def update_scaling (m : WaveformModel) (lo hi : ℚ) : WaveformModel :=
  if lo < 0 ∨ hi > 100 ∨ lo ≥ hi then m
  else recalculateNormalization
    { m with loPercentile := lo, hiPercentile := hi }

/-- The sample index resolved by `get_normalized_value`/`get_raw_value`:
`int(time_offset * sample_rate)` clamped into the valid index range. -/
def resolvedIndex (tr : Trace) (t : ℚ) : ℕ :=
  let i : ℤ := pyInt ((t - tr.starttime) * tr.samplingRate)
  (max 0 (min i ((tr.data.length : ℤ) - 1))).toNat

/-- `WaveformModel.get_normalized_value`: `0.0` without an active trace, for a
timestamp outside the trace's time range, for a non-finite sample, or without
normalization bounds; otherwise clamp the raw sample to the (swap-corrected)
bounds, map linearly onto `[0,1]` (`0.5` for a degenerate range) and clamp the
result to `[0,1]`. -/
def get_normalized_value (m : WaveformModel) (t : ℚ) : ℚ :=
  match activeTrace m with
  | none => 0
  | some tr =>
    if t < tr.starttime ∨ t > tr.endTime then 0
    else
      match tr.data.getD (resolvedIndex tr t) none with
      | none => 0
      | some raw =>
        match m.normalizationMin, m.normalizationMax with
        | some nmin0, some nmax0 =>
          let nmin := if nmin0 > nmax0 then nmax0 else nmin0
          let nmax := if nmin0 > nmax0 then nmin0 else nmax0
          let clamped := max nmin (min raw nmax)
          let normalized :=
            if nmax = nmin then 1/2 else (clamped - nmin) / (nmax - nmin)
          max 0 (min 1 normalized)
        | _, _ => 0

/-! ## Sinks and the OSCManager (`core/osc_object.py`, `core/serial_object.py`,
`core/osc_manager.py`) -/

/-- A sink (`OSCObject` or `SerialObject`).  `connected` models the transport
being available: the UDP client existing for an OSC object, the serial port
being open for a serial object. -/
structure Sink where
  isSerial : Bool
  streaming : Bool
  connected : Bool
  remapMin : ℚ
  remapMax : ℚ
  deriving DecidableEq, Repr

/-- `OSCObject.send` / `SerialObject.send`: return `none` (no frame on the
wire) when streaming is disabled or the transport is unavailable, else
transmit and return the remapped value. -/
def sendSink (o : Sink) (v : ℚ) : Option ℚ :=
  if o.streaming && o.connected then
    some (remap_value o.remapMin o.remapMax v)
  else none

/-- A freshly constructed `OSCObject`: not streaming; `conn` records whether
the UDP client was created. -/
def freshOSC (conn : Bool) (rmin rmax : ℚ) : Sink :=
  { isSerial := false, streaming := false, connected := conn,
    remapMin := rmin, remapMax := rmax }

/-- A freshly constructed `SerialObject`: not streaming, port not opened. -/
def freshSerial (rmin rmax : ℚ) : Sink :=
  { isSerial := true, streaming := false, connected := false,
    remapMin := rmin, remapMax := rmax }

/-- Externally observable events of a manager operation. -/
inductive Event
  | transmitted (name : String) (value : ℚ)
  | streamChanged (name : String) (enabled : Bool)
  | connChanged (name : String) (enabled : Bool)
  | valueUpdated (name : String) (value : ℚ)
  | closedTransport (name : String)
  deriving DecidableEq, Repr

/-- Recognize a frame actually put on the wire. -/
def isTransmitted : Event → Bool
  | .transmitted _ _ => true
  | _ => false

/-- State of an `OSCManager`: the sink dictionary and the two per-transport
timers. -/
structure OSCManager where
  objects : List (String × Sink)
  oscTimerActive : Bool
  serialTimerActive : Bool
  deriving DecidableEq, Repr

/-- A freshly constructed `OSCManager`: no sinks, both timers stopped. -/
def initManager : OSCManager :=
  { objects := [], oscTimerActive := false, serialTimerActive := false }

/-- Is any sink of the given transport class (`true` = serial) streaming? -/
def any_streaming (serial : Bool) (l : List (String × Sink)) : Bool :=
  l.any (fun p => p.2.isSerial == serial && p.2.streaming)

/-- `OSCManager.stop_object_streaming`: when the named sink is streaming,
clear its flag, emit the state-changed signal, call `send(0.0, ...)` on it
(the call happens after the flag was cleared), and stop the class timer if no
sink of that class is still streaming. -/
def stop_object_streaming (m : OSCManager) (name : String) :
    OSCManager × List Event :=
  match lookupKey m.objects name with
  | none => (m, [])
  | some o =>
    if o.streaming then
      let o1 : Sink := { o with streaming := false }
      let objs1 := updateKey m.objects name o1
      let sendResult := sendSink o1 0
      let evs :=
        Event.streamChanged name false ::
        (match sendResult with
         | some w => [Event.transmitted name w, Event.valueUpdated name 0]
         | none => [])
      let m1 : OSCManager :=
        if o1.isSerial then
          if any_streaming true objs1 then { m with objects := objs1 }
          else { m with objects := objs1, serialTimerActive := false }
        else
          if any_streaming false objs1 then { m with objects := objs1 }
          else { m with objects := objs1, oscTimerActive := false }
      (m1, evs)
    else (m, [])

/-- Second half of `OSCManager.start_object_streaming`: enable streaming on a
(now connected) sink and ensure its class timer is running. -/
def enableStream (m : OSCManager) (name : String) (o : Sink)
    (evs : List Event) : OSCManager × List Event :=
  if o.streaming then (m, evs)
  else
    let o2 : Sink := { o with streaming := true }
    let objs2 := updateKey m.objects name o2
    let m2 : OSCManager :=
      if o2.isSerial then
        { m with objects := objs2, serialTimerActive := true }
      else
        { m with objects := objs2, oscTimerActive := true }
    (m2, evs ++ [Event.streamChanged name true])

/-- `OSCManager.start_object_streaming`: for a disconnected serial sink try to
reconnect first (`reconnectOk` is the outcome of `reconnect()`); on failure
emit a connection-state event and bail out; else enable streaming. -/
def start_object_streaming (m : OSCManager) (name : String)
    (reconnectOk : Bool) : OSCManager × List Event :=
  match lookupKey m.objects name with
  | none => (m, [])
  | some o =>
    if o.isSerial && !o.connected then
      if reconnectOk then
        let o1 : Sink := { o with connected := true }
        enableStream { m with objects := updateKey m.objects name o1 }
          name o1 [Event.connChanged name true]
      else (m, [Event.connChanged name false])
    else enableStream m name o []

/-- `OSCManager.remove_object`: stop the sink's streaming when active, close
its transport (emitting a connection event for serial sinks) and delete it. -/
def remove_object (m : OSCManager) (name : String) :
    OSCManager × List Event :=
  match lookupKey m.objects name with
  | none => (m, [])
  | some o =>
    let r := if o.streaming then stop_object_streaming m name else (m, [])
    let evs := r.2 ++ [Event.closedTransport name] ++
      (if o.isSerial then [Event.connChanged name false] else [])
    ({ r.1 with objects := eraseKey r.1.objects name }, evs)

/-- `OSCManager.add_osc_object`: replace an existing sink of the same name
(removing it first), register the new OSC sink and start the OSC timer. -/
def add_osc_object (m : OSCManager) (name : String) (conn : Bool)
    (rmin rmax : ℚ) : OSCManager × List Event :=
  let r := if (lookupKey m.objects name).isSome then remove_object m name
           else (m, [])
  ({ r.1 with objects := r.1.objects ++ [(name, freshOSC conn rmin rmax)],
              oscTimerActive := true }, r.2)

/-- `OSCManager.add_serial_object`: replace an existing sink of the same name
(removing it first), register the new serial sink, emit its (disconnected)
connection state and start the serial timer. -/
def add_serial_object (m : OSCManager) (name : String) (rmin rmax : ℚ) :
    OSCManager × List Event :=
  let r := if (lookupKey m.objects name).isSome then remove_object m name
           else (m, [])
  ({ r.1 with objects := r.1.objects ++ [(name, freshSerial rmin rmax)],
              serialTimerActive := true },
   r.2 ++ [Event.connChanged name false])

/-- One dispatcher operation, as named in the timer-invariant claim. -/
inductive MStep : OSCManager → OSCManager → Prop
  | addOSC {m : OSCManager} (name : String) (conn : Bool) (rmin rmax : ℚ) :
      MStep m (add_osc_object m name conn rmin rmax).1
  | addSerial {m : OSCManager} (name : String) (rmin rmax : ℚ) :
      MStep m (add_serial_object m name rmin rmax).1
  | startStreaming {m : OSCManager} (name : String) (reconnectOk : Bool) :
      MStep m (start_object_streaming m name reconnectOk).1
  | stopStreaming {m : OSCManager} (name : String) :
      MStep m (stop_object_streaming m name).1
  | remove {m : OSCManager} (name : String) :
      MStep m (remove_object m name).1

/-- Manager states reachable from a fresh manager by any operation
sequence. -/
inductive MReachable : OSCManager → Prop
  | init : MReachable initManager
  | step {m m' : OSCManager} : MReachable m → MStep m m' → MReachable m'

/-- The timer invariant exactly as claimed: each class timer is active iff at
least one sink of that class is streaming. -/
def timer_iff_invariant (m : OSCManager) : Prop :=
  (m.oscTimerActive = true ↔ any_streaming false m.objects = true) ∧
  (m.serialTimerActive = true ↔ any_streaming true m.objects = true)

instance (m : OSCManager) : Decidable (timer_iff_invariant m) := by
  unfold timer_iff_invariant; infer_instance

/-! ## Concrete states used to settle individual claims -/

/-- The channel of the normalization walkthrough: samples `10, 20, ..., 1000`
at 1 Hz starting at `T0 = 0`. -/
def c3Trace : Trace :=
  { starttime := 0, samplingRate := 1,
    data := (List.range 100).map (fun i => some ((10 : ℚ) * ((i : ℚ) + 1))) }

/-- A model holding `c3Trace` as its single, active channel. -/
def c3Model : WaveformModel :=
  { channels := [("03.BHU", c3Trace)], activeChannel := some "03.BHU",
    loPercentile := 1, hiPercentile := 99,
    normalizationMin := none, normalizationMax := none }

/-- A model with no channels and no active channel. -/
def c4Model : WaveformModel :=
  { channels := [], activeChannel := none,
    loPercentile := 1, hiPercentile := 99,
    normalizationMin := none, normalizationMax := none }

/-- A two-sample model used to instantiate the normalization invariant. -/
def c5Trace : Trace := { starttime := 0, samplingRate := 1,
                         data := [some 1, some 2] }

/-- A model holding `c5Trace` as its single, active channel. -/
def c5Model : WaveformModel :=
  { channels := [("03.BHV", c5Trace)], activeChannel := some "03.BHV",
    loPercentile := 1, hiPercentile := 99,
    normalizationMin := some 1, normalizationMax := some 2 }

/-- A controller bound to the range `[3, 100]` with a loop start at `7`. -/
def c7Controller : PlaybackController :=
  { initPB (some (3, 100)) with loopEnabled := true, loopStart := some 7 }

/-- A controller bound to `[0, 100]` that was started at wall-clock `7`. -/
def c8Controller : PlaybackController := startPB (initPB (some (0, 100))) 7

/-- A manager holding one OSC sink `"a"` whose streaming was started. -/
def c1Manager : OSCManager :=
  (start_object_streaming (add_osc_object initManager "a" true 0 1).1
    "a" true).1

/-- A manager obtained by adding one (non-streaming) OSC sink `"a"`. -/
def c2AddedManager : OSCManager :=
  (add_osc_object initManager "a" true 0 1).1

/-- A manager holding one OSC sink `"a"` whose streaming was started. -/
def c2Manager : OSCManager :=
  (start_object_streaming (add_osc_object initManager "a" true 0 1).1
    "a" true).1

/-- A manager holding one OSC sink `"a"` whose streaming was started. -/
def c9Manager : OSCManager :=
  (start_object_streaming (add_osc_object initManager "a" true 0 1).1
    "a" true).1

/-! ## Theorems: C10, C6, C7, C3 -/

/-- C10: for every pair `(remap_min, remap_max)` — including degenerate and
inverted pairs — and every input, `remap_value` is total and returns a value
between `min remap_min remap_max` and `max remap_min remap_max`. -/
theorem C10_remap_value_bounded (a b v : ℚ) :
    min a b ≤ remap_value a b v ∧ remap_value a b v ≤ max a b := by
  have h0 : (0 : ℚ) ≤ max 0 (min 1 v) := le_max_left _ _
  have h1 : max 0 (min 1 v) ≤ 1 := max_le zero_le_one (min_le_left _ _)
  simp only [remap_value]
  by_cases h : b = a
  · simp [h]
  · rw [if_neg h]
    rcases le_total a b with hab | hab
    · rw [min_eq_left hab, max_eq_right hab]
      constructor <;> nlinarith
    · rw [min_eq_right hab, max_eq_left hab]
      constructor <;> nlinarith

/-- C6: `set_loop_range(start, end)` fails with a validation error iff
`end - start < 2.0` seconds, leaving the stored loop range unchanged on
failure; otherwise it succeeds, storing `(start, end)`. -/
theorem C6_set_loop_range (s : PlaybackController) (a b : ℚ) :
    (b - a < 2 →
      set_loop_range s a b = Except.error () ∧ set_loop_range_state s a b = s)
    ∧ (¬ b - a < 2 →
      set_loop_range s a b =
        Except.ok { s with loopStart := some a, loopEnd := some b }) := by
  have hc : (b - a) / 86400 * 86400 = b - a := div_mul_cancel₀ _ (by norm_num)
  constructor
  · intro h
    have he : set_loop_range s a b = Except.error () := by
      simp only [set_loop_range, MIN_LOOP_LENGTH, hc]
      rw [if_pos h]
    exact ⟨he, by simp only [set_loop_range_state, he]⟩
  · intro h
    simp only [set_loop_range, MIN_LOOP_LENGTH, hc]
    rw [if_neg h]

/-- Witness for C6 at concrete inputs: a 1-second range is rejected without
mutation, a 5-second range is stored. -/
theorem C6_set_loop_range_witness :
    (set_loop_range (initPB none) 0 1 = Except.error () ∧
      set_loop_range_state (initPB none) 0 1 = initPB none) ∧
    set_loop_range (initPB none) 0 5 =
      Except.ok { initPB none with loopStart := some 0, loopEnd := some 5 } :=
  ⟨(C6_set_loop_range (initPB none) 0 1).1 (by norm_num),
   (C6_set_loop_range (initPB none) 0 5).2 (by norm_num)⟩

/-- C7: with a bound model exposing a time range, `stop()` transitions to
`stopped` and resets the playhead to the range start when the loop is
disabled, and to the loop start when the loop is enabled and set. -/
theorem C7_stop_resets_position (s : PlaybackController) (st en : ℚ)
    (h : s.timeRange = some (st, en)) :
    (stopPB s).state = .stopped ∧
    (s.loopEnabled = false → (stopPB s).currentTime = some st) ∧
    (∀ ls, s.loopEnabled = true → s.loopStart = some ls →
      (stopPB s).currentTime = some ls) := by
  refine ⟨rfl, ?_, ?_⟩
  · intro hl
    simp only [stopPB, h, hl]
  · intro ls hl hls
    simp only [stopPB, h, hl, hls]

/-- Witness for C7 at a concrete controller: loop enabled with start `7`
resets to `7`; the same controller with the loop disabled resets to the
range start `3`. -/
theorem C7_stop_resets_position_witness :
    (stopPB c7Controller).state = .stopped ∧
    (stopPB c7Controller).currentTime = some 7 ∧
    (stopPB { c7Controller with loopEnabled := false }).currentTime =
      some 3 :=
  ⟨(C7_stop_resets_position c7Controller 3 100 rfl).1,
   (C7_stop_resets_position c7Controller 3 100 rfl).2.2 7 rfl rfl,
   (C7_stop_resets_position { c7Controller with loopEnabled := false }
      3 100 rfl).2.1 rfl⟩

/-- C3 counterexample: on the walkthrough channel the code returns
`(510-10)/(1000-10) = 50/99 ≈ 0.5051`, which differs from the claimed
`≈ 0.5556` by more than `0.04`. -/
theorem C3_value_counterexample :
    get_normalized_value (update_scaling c3Model 0 100) 50 = 50 / 99 ∧
    |get_normalized_value (update_scaling c3Model 0 100) 50 - 5556 / 10000| >
      1 / 25 := by
  have h : get_normalized_value (update_scaling c3Model 0 100) 50 = 50 / 99 := by
    decide
  refine ⟨h, ?_⟩
  rw [h, abs_of_neg (by norm_num : (50 / 99 : ℚ) - 5556 / 10000 < 0)]
  norm_num

/-- C3 (amended): `update_scaling(0, 100)` yields `norm_min = 10`,
`norm_max = 1000`, and `get_normalized_value(T0 + 50s)` returns
`(510-10)/(1000-10) = 50/99 ≈ 0.5051`. -/
theorem C3_scaling_walkthrough :
    (update_scaling c3Model 0 100).normalizationMin = some 10 ∧
    (update_scaling c3Model 0 100).normalizationMax = some 1000 ∧
    get_normalized_value (update_scaling c3Model 0 100) 50 = 50 / 99 := by
  refine ⟨by decide, by decide, by decide⟩

/-! ## Theorems: C8 (with the anchor invariant), C4 -/

/-- In every reachable controller state, `playing` implies that the
wall-clock anchor and the playhead are set (the `set_speed` re-anchoring
branch is then taken). -/
theorem pb_playing_anchors {s : PlaybackController} (h : PBReachable s) :
    s.state = .playing →
    s.playbackStartTime.isSome ∧ s.currentTime.isSome := by
  induction h with
  | init tr => intro h; simp [initPB] at h
  | @step s s' hr hstep ih =>
    cases hstep with
    | start now =>
      unfold startPB
      cases htr : s.timeRange with
      | none => exact ih
      | some r => intro _; simp
    | pause =>
      unfold pausePB
      cases hs : s.state with
      | playing => intro h; simp at h
      | stopped => exact ih
      | paused => exact ih
    | stop => intro h; simp [stopPB] at h
    | speed x now =>
      unfold set_speed
      split
      · rename_i hcond
        intro _
        exact ⟨by simp, hcond.2.2⟩
      · intro h
        exact ih h
    | loopRange a b =>
      by_cases hc : (b - a) / 86400 * 86400 < MIN_LOOP_LENGTH
      · simp only [set_loop_range_state, set_loop_range, if_pos hc]
        exact ih
      · simp only [set_loop_range_state, set_loop_range, if_neg hc]
        intro h; exact ih h
    | loop b => intro h; exact ih h
    | model tr =>
      unfold setWaveformModelPB
      cases tr with
      | none => intro h; exact ih h
      | some r => intro h; exact ⟨(ih h).1, by simp⟩
    | tick now =>
      unfold updatePlayhead
      cases hct : s.currentTime with
      | none => exact ih
      | some ct =>
      cases hst : s.playbackStartTime with
      | none => exact ih
      | some pst =>
      cases hpp : s.playbackStartPosition with
      | none => exact ih
      | some pos =>
      cases htr : s.timeRange with
      | none => exact ih
      | some r =>
      obtain ⟨st2, en⟩ := r
      dsimp only
      split <;> split
      · intro _; exact ⟨by simp, by simp⟩
      · intro _; exact ⟨by simp, by simp⟩
      · intro h; simp [stopPB] at h
      · intro _; exact ⟨by simp, by simp⟩

/-- C8: `set_speed(x)` stores exactly `x` clamped into `[0.1, 1000.0]`, and
when called in the `playing` state (of any reachable controller) it
re-anchors the pair (playhead anchor := current playhead, wall-clock anchor
:= now). -/
theorem C8_set_speed_clamp_reanchor (s : PlaybackController) (x now : ℚ)
    (hr : PBReachable s) :
    (set_speed s x now).speed = max (1 / 10) (min 1000 x) ∧
    (s.state = .playing →
      (set_speed s x now).playbackStartPosition = s.currentTime ∧
      (set_speed s x now).playbackStartTime = some now) := by
  constructor
  · unfold set_speed
    split <;> rfl
  · intro hp
    obtain ⟨h1, h2⟩ := pb_playing_anchors hr hp
    unfold set_speed
    rw [if_pos ⟨hp, h1, h2⟩]
    exact ⟨rfl, rfl⟩

/-- Witness for C8: a concrete started controller; `set_speed 2000` clamps to
`1000` and re-anchors. -/
theorem C8_set_speed_clamp_reanchor_witness :
    (set_speed c8Controller 2000 9).speed = max (1 / 10) (min 1000 2000) ∧
    (set_speed c8Controller 2000 9).playbackStartPosition =
      c8Controller.currentTime ∧
    (set_speed c8Controller 2000 9).playbackStartTime = some 9 := by
  have hr : PBReachable c8Controller :=
    PBReachable.step (PBReachable.init (some (0, 100))) (PBStep.start 7)
  have h := C8_set_speed_clamp_reanchor c8Controller 2000 9 hr
  exact ⟨h.1, (h.2 rfl).1, (h.2 rfl).2⟩

/-- C4: `get_normalized_value` always returns a value in `[0, 1]`, and
returns exactly `0` when there is no active trace, when the timestamp is
strictly outside the trace's time range, and when the sample at the resolved
index is non-finite. -/
theorem C4_normalized_value_range (m : WaveformModel) (t : ℚ) :
    (0 ≤ get_normalized_value m t ∧ get_normalized_value m t ≤ 1) ∧
    (activeTrace m = none → get_normalized_value m t = 0) ∧
    (∀ tr, activeTrace m = some tr → (t < tr.starttime ∨ t > tr.endTime) →
      get_normalized_value m t = 0) ∧
    (∀ tr, activeTrace m = some tr → ¬(t < tr.starttime ∨ t > tr.endTime) →
      tr.data.getD (resolvedIndex tr t) none = none →
      get_normalized_value m t = 0) := by
  refine ⟨?_, ?_, ?_, ?_⟩
  · unfold get_normalized_value
    split
    · norm_num
    · split
      · norm_num
      · split
        · norm_num
        · split
          · dsimp only
            exact ⟨le_max_left _ _, max_le zero_le_one (min_le_left _ _)⟩
          · norm_num
  · intro h; simp [get_normalized_value, h]
  · intro tr h hrange; simp [get_normalized_value, h, hrange]
  · intro tr h hrange hdata
    simp only [List.getD, List.get?_eq_getElem?] at hdata
    simp [get_normalized_value, h, hrange, hdata]

/-- Witness for C4: on a model without channels every probe returns `0`,
which lies in `[0, 1]`. -/
theorem C4_normalized_value_range_witness :
    (0 ≤ get_normalized_value c4Model 5 ∧ get_normalized_value c4Model 5 ≤ 1)
    ∧ get_normalized_value c4Model 5 = 0 :=
  ⟨(C4_normalized_value_range c4Model 5).1,
   (C4_normalized_value_range c4Model 5).2.1 rfl⟩

/-! ## Theorems: C5 -/

/-- The normalization bounds, whenever both set, are ordered. -/
def boundsOrdered (m : WaveformModel) : Prop :=
  ∀ a b, m.normalizationMin = some a → m.normalizationMax = some b → a ≤ b

/-- When the active channel has no valid samples the bounds are `[0, 1]`. -/
def emptyCollapse (m : WaveformModel) : Prop :=
  ∀ tr, activeTrace m = some tr → validSamples tr = [] →
    m.normalizationMin = some 0 ∧ m.normalizationMax = some 1

theorem mem_insSortedStr {y x : String} {l : List String} :
    y ∈ insSortedStr x l ↔ y = x ∨ y ∈ l := by
  induction l with
  | nil => simp [insSortedStr]
  | cons z zs ih =>
    unfold insSortedStr
    split
    · simp
    · simp only [List.mem_cons, ih]
      tauto

theorem mem_sortStr {y : String} {l : List String} :
    y ∈ sortStr l ↔ y ∈ l := by
  induction l with
  | nil => simp [sortStr]
  | cons a l ih =>
    show y ∈ insSortedStr a (sortStr l) ↔ _
    rw [mem_insSortedStr, ih]
    simp

theorem lookup_isSome_of_mem_keys {α : Type} {l : List (String × α)}
    {k : String} (h : k ∈ keysOf l) : (lookupKey l k).isSome := by
  induction l with
  | nil => simp [keysOf] at h
  | cons p ps ih =>
    simp only [keysOf, List.map_cons, List.mem_cons] at h
    by_cases hk : p.1 == k
    · simp [lookupKey, List.find?, hk]
    · rcases h with h | h
      · exact absurd (beq_iff_eq.mpr h.symm) hk
      · simpa [lookupKey, List.find?, hk] using ih h

/-- Recalculating the normalization always yields ordered bounds and the
`[0,1]` collapse on an empty valid sample set. -/
theorem recalculate_normalization_good (m : WaveformModel) :
    boundsOrdered (recalculateNormalization m) ∧
    emptyCollapse (recalculateNormalization m) := by
  have hact : ∀ x y,
      activeTrace { m with normalizationMin := x, normalizationMax := y } =
        activeTrace m := fun _ _ => rfl
  unfold recalculateNormalization
  cases h : activeTrace m with
  | none =>
    constructor
    · intro a b ha hb
      simp at ha
    · intro tr htr hv
      rw [hact, h] at htr
      cases htr
  | some tr =>
    dsimp only
    by_cases h0 : tr.data.length = 0
    · rw [if_pos h0]
      constructor
      · intro a b ha hb
        simp only [Option.some.injEq] at ha hb
        rw [← ha, ← hb]
        norm_num
      · intro tr1 htr hv
        exact ⟨rfl, rfl⟩
    · rw [if_neg h0]
      by_cases hv0 : (validSamples tr).length = 0
      · rw [if_pos hv0]
        constructor
        · intro a b ha hb
          simp only [Option.some.injEq] at ha hb
          rw [← ha, ← hb]
          norm_num
        · intro tr1 htr hv
          exact ⟨rfl, rfl⟩
      · rw [if_neg hv0]
        by_cases hsw :
            npPercentile (validSamples tr) m.hiPercentile <
              npPercentile (validSamples tr) m.loPercentile
        · rw [if_pos hsw]
          constructor
          · intro a b ha hb
            simp only [Option.some.injEq] at ha hb
            rw [← ha, ← hb]
            exact le_of_lt hsw
          · intro tr1 htr hv
            rw [hact, h] at htr
            cases htr
            exact absurd (by rw [hv]; rfl) hv0
        · rw [if_neg hsw]
          constructor
          · intro a b ha hb
            simp only [Option.some.injEq] at ha hb
            rw [← ha, ← hb]
            exact le_of_not_lt hsw
          · intro tr1 htr hv
            rw [hact, h] at htr
            cases htr
            exact absurd (by rw [hv]; rfl) hv0

/-- C5: after every normalization recompute — any accepted
`update_scaling(lo, hi)` with `0 ≤ lo < hi ≤ 100`, `set_active_channel` on a
present channel, or `set_stream` — the stored bounds satisfy
`norm_min ≤ norm_max`, and if the active channel's valid sample set is empty
the bounds are exactly `[0, 1]`. -/
theorem C5_normalization_bounds (m : WaveformModel) (lo hi : ℚ) (c : String)
    (chs : List (String × Trace)) (hlo : 0 ≤ lo) (hlohi : lo < hi)
    (hhi : hi ≤ 100) (hc : (lookupKey m.channels c).isSome) :
    (boundsOrdered (update_scaling m lo hi) ∧
      emptyCollapse (update_scaling m lo hi)) ∧
    (boundsOrdered (set_active_channel m c) ∧
      emptyCollapse (set_active_channel m c)) ∧
    (boundsOrdered (set_stream m chs) ∧
      emptyCollapse (set_stream m chs)) := by
  refine ⟨?_, ?_, ?_⟩
  · unfold update_scaling
    rw [if_neg]
    · exact recalculate_normalization_good _
    · push_neg
      exact ⟨hlo, by norm_num [hhi], hlohi⟩
  · unfold set_active_channel
    rw [if_pos hc]
    exact recalculate_normalization_good _
  · unfold set_stream
    cases hs : sortStr (keysOf chs).dedup with
    | nil =>
      constructor
      · intro a b ha
        simp at ha
      · intro tr htr
        simp [activeTrace] at htr
    | cons c0 rest =>
      have hc0 : c0 ∈ keysOf chs := by
        have : c0 ∈ sortStr (keysOf chs).dedup := by
          rw [hs]; exact List.mem_cons_self _ _
        exact List.mem_dedup.mp (mem_sortStr.mp this)
      unfold set_active_channel
      dsimp only
      rw [if_pos (lookup_isSome_of_mem_keys hc0)]
      exact recalculate_normalization_good _

/-- Witness for C5 at a concrete model and accepted inputs. -/
theorem C5_normalization_bounds_witness :
    (boundsOrdered (update_scaling c5Model 0 100) ∧
      emptyCollapse (update_scaling c5Model 0 100)) ∧
    (boundsOrdered (set_active_channel c5Model "03.BHV") ∧
      emptyCollapse (set_active_channel c5Model "03.BHV")) ∧
    (boundsOrdered (set_stream c5Model [("03.BHV", c5Trace)]) ∧
      emptyCollapse (set_stream c5Model [("03.BHV", c5Trace)])) :=
  C5_normalization_bounds c5Model 0 100 "03.BHV" [("03.BHV", c5Trace)]
    (by norm_num) (by norm_num) (by norm_num) (by decide)

/-! ## Association-list and `any_streaming` lemmas for the manager claims -/

theorem lookupKey_nil {α : Type} {k : String} :
    lookupKey ([] : List (String × α)) k = none := rfl

theorem lookupKey_cons_pos {α : Type} {p : String × α}
    {t : List (String × α)} {k : String} (h : (p.1 == k) = true) :
    lookupKey (p :: t) k = some p.2 := by
  unfold lookupKey
  rw [@List.find?_cons_of_pos _ (fun q => q.1 == k) p t h]

theorem lookupKey_cons_neg {α : Type} {p : String × α}
    {t : List (String × α)} {k : String} (h : ¬(p.1 == k) = true) :
    lookupKey (p :: t) k = lookupKey t k := by
  unfold lookupKey
  rw [@List.find?_cons_of_neg _ (fun q => q.1 == k) p t h]

theorem updateKey_cons {α : Type} {p : String × α} {t : List (String × α)}
    {k : String} {v : α} :
    updateKey (p :: t) k v =
      (if p.1 == k then (p.1, v) else p) :: updateKey t k v := rfl

theorem keysOf_updateKey {α : Type} {l : List (String × α)} {k : String}
    {v : α} : keysOf (updateKey l k v) = keysOf l := by
  unfold updateKey keysOf
  rw [List.map_map]
  apply List.map_congr_left
  intro p _
  by_cases h : (p.1 == k) = true
  · show (if p.1 == k then (p.1, v) else p).1 = p.1
    rw [if_pos h]
  · show (if p.1 == k then (p.1, v) else p).1 = p.1
    rw [if_neg h]

theorem keys_eraseKey_sublist {α : Type} (l : List (String × α))
    (k : String) : (keysOf (eraseKey l k)).Sublist (keysOf l) :=
  (List.filter_sublist l).map _

theorem not_mem_keys_eraseKey {α : Type} (l : List (String × α))
    (k : String) : k ∉ keysOf (eraseKey l k) := by
  induction l with
  | nil => simp [eraseKey, keysOf]
  | cons p t ih =>
    show k ∉ keysOf (List.filter _ (p :: t))
    rw [List.filter_cons]
    by_cases h : (!(p.1 == k)) = true
    · rw [if_pos h]
      simp only [keysOf, List.map_cons, List.mem_cons]
      rintro (rfl | hm)
      · simp at h
      · exact ih hm
    · rw [if_neg h]
      exact ih

theorem nodup_keys_eraseKey {α : Type} {l : List (String × α)} (k : String)
    (h : (keysOf l).Nodup) : (keysOf (eraseKey l k)).Nodup :=
  h.sublist (keys_eraseKey_sublist l k)

theorem not_mem_keys_of_lookup_none {α : Type} {l : List (String × α)}
    {k : String} (h : lookupKey l k = none) : k ∉ keysOf l := by
  induction l with
  | nil => simp [keysOf]
  | cons p t ih =>
    by_cases hk : (p.1 == k) = true
    · rw [lookupKey_cons_pos hk] at h
      cases h
    · have h2 : lookupKey t k = none := by rwa [lookupKey_cons_neg hk] at h
      have h3 := ih h2
      simp only [keysOf, List.map_cons, List.mem_cons]
      rintro (rfl | hmem)
      · exact hk (beq_self_eq_true _)
      · exact h3 hmem

theorem lookup_none_of_not_mem_keys {α : Type} {l : List (String × α)}
    {k : String} (h : k ∉ keysOf l) : lookupKey l k = none := by
  induction l with
  | nil => rfl
  | cons p t ih =>
    simp only [keysOf, List.map_cons, List.mem_cons] at h
    push_neg at h
    have hk : ¬(p.1 == k) = true := by
      intro hc
      exact h.1 (beq_iff_eq.mp hc).symm
    rw [lookupKey_cons_neg hk]
    exact ih h.2

theorem lookupKey_append_right {α : Type} {l : List (String × α)}
    {k : String} (v : α) (h : lookupKey l k = none) :
    lookupKey (l ++ [(k, v)]) k = some v := by
  induction l with
  | nil =>
    rw [List.nil_append]
    exact lookupKey_cons_pos (beq_self_eq_true k)
  | cons p t ih =>
    by_cases hk : (p.1 == k) = true
    · rw [lookupKey_cons_pos hk] at h
      cases h
    · have h2 : lookupKey t k = none := by rwa [lookupKey_cons_neg hk] at h
      rw [List.cons_append, lookupKey_cons_neg hk]
      exact ih h2

theorem updateKey_of_not_mem {α : Type} {l : List (String × α)} {k : String}
    {v : α} (h : k ∉ keysOf l) : updateKey l k v = l := by
  induction l with
  | nil => rfl
  | cons p t ih =>
    simp only [keysOf, List.map_cons, List.mem_cons] at h
    push_neg at h
    have hk : ¬(p.1 == k) = true := by
      intro hc
      exact h.1 (beq_iff_eq.mp hc).symm
    rw [updateKey_cons, if_neg hk, ih h.2]

theorem updateKey_updateKey {α : Type} {l : List (String × α)} {k : String}
    {v1 v2 : α} : updateKey (updateKey l k v1) k v2 = updateKey l k v2 := by
  induction l with
  | nil => rfl
  | cons p t ih =>
    by_cases hk : (p.1 == k) = true
    · simp only [updateKey_cons, hk, if_true, ih]
    · simp [updateKey_cons, hk, ih]

theorem any_streaming_updateKey_false {c : Bool} {l : List (String × Sink)}
    {k : String} {o1 : Sink} (h : (o1.isSerial == c && o1.streaming) = false)
    (ha : any_streaming c (updateKey l k o1) = true) :
    any_streaming c l = true := by
  induction l with
  | nil => simp [updateKey, any_streaming] at ha
  | cons p t ih =>
    rw [updateKey_cons] at ha
    simp only [any_streaming, List.any_cons, Bool.or_eq_true] at ha ⊢
    by_cases hk : (p.1 == k) = true
    · rw [if_pos hk] at ha
      rcases ha with ha | ha
      · exact absurd ha (by simp [h])
      · exact Or.inr (ih (by simpa [any_streaming, updateKey] using ha))
    · rw [if_neg hk] at ha
      rcases ha with ha | ha
      · exact Or.inl ha
      · exact Or.inr (ih (by simpa [any_streaming, updateKey] using ha))

theorem any_streaming_updateKey_congr {c : Bool} {l : List (String × Sink)}
    {k : String} {o o1 : Sink} (hn : (keysOf l).Nodup)
    (hf : lookupKey l k = some o)
    (h : (o1.isSerial == c && o1.streaming) = (o.isSerial == c && o.streaming)) :
    any_streaming c (updateKey l k o1) = any_streaming c l := by
  induction l with
  | nil => simp [lookupKey] at hf
  | cons p t ih =>
    simp only [keysOf, List.map_cons, List.nodup_cons] at hn
    by_cases hk : (p.1 == k) = true
    · have hpo : o = p.2 := by
        rw [lookupKey_cons_pos hk] at hf
        exact (Option.some.injEq _ _ ▸ hf).symm
      have hkt : k ∉ keysOf t := by
        have h2 := hn.1
        rwa [beq_iff_eq.mp hk] at h2
      have ht : updateKey t k o1 = t := updateKey_of_not_mem hkt
      rw [updateKey_cons, if_pos hk, ht]
      simp only [any_streaming, List.any_cons]
      rw [show ((p.1, o1).2.isSerial == c && (p.1, o1).2.streaming) =
            (p.2.isSerial == c && p.2.streaming) from by rw [hpo] at h; exact h]
    · have hf2 : lookupKey t k = some o := by
        rwa [lookupKey_cons_neg hk] at hf
      rw [updateKey_cons, if_neg hk]
      simp only [any_streaming, List.any_cons]
      rw [show (updateKey t k o1).any
            (fun p => p.2.isSerial == c && p.2.streaming) =
            t.any (fun p => p.2.isSerial == c && p.2.streaming) from
        by simpa [any_streaming, updateKey] using ih hn.2 hf2]

theorem any_streaming_eraseKey {c : Bool} {l : List (String × Sink)}
    {k : String} (h : any_streaming c (eraseKey l k) = true) :
    any_streaming c l = true := by
  simp only [any_streaming, eraseKey, List.any_eq_true] at h ⊢
  obtain ⟨p, hp, hpred⟩ := h
  exact ⟨p, List.mem_of_mem_filter hp, hpred⟩

theorem any_streaming_append {c : Bool} {l : List (String × Sink)}
    {k : String} {o : Sink} :
    any_streaming c (l ++ [(k, o)]) =
      (any_streaming c l || (o.isSerial == c && o.streaming)) := by
  simp [any_streaming, List.any_append]

/-! ## The manager invariant and its preservation -/

/-- Internal invariant of a dispatcher state: unique sink names, and each
class timer active whenever some sink of that class is streaming. -/
def managerInv (m : OSCManager) : Prop :=
  (keysOf m.objects).Nodup ∧
  (any_streaming false m.objects = true → m.oscTimerActive = true) ∧
  (any_streaming true m.objects = true → m.serialTimerActive = true)

theorem any_streaming_updateKey_stop {c : Bool} {l : List (String × Sink)}
    {k : String} {o : Sink}
    (ha : any_streaming c (updateKey l k { o with streaming := false }) =
      true) : any_streaming c l = true :=
  any_streaming_updateKey_false (by simp) ha

theorem keysOf_stop_objects (m : OSCManager) (name : String) :
    keysOf (stop_object_streaming m name).1.objects = keysOf m.objects := by
  unfold stop_object_streaming
  cases hf : lookupKey m.objects name with
  | none => rfl
  | some o =>
    dsimp only
    by_cases hstr : o.streaming
    · rw [if_pos hstr]
      dsimp only
      split <;> split <;> exact keysOf_updateKey
    · rw [if_neg hstr]

theorem managerInv_stop (m : OSCManager) (name : String)
    (h : managerInv m) : managerInv (stop_object_streaming m name).1 := by
  obtain ⟨hn, ho, hs⟩ := h
  unfold stop_object_streaming
  cases hf : lookupKey m.objects name with
  | none => exact ⟨hn, ho, hs⟩
  | some o =>
    dsimp only
    by_cases hstr : o.streaming
    · rw [if_pos hstr]
      dsimp only
      have hnd : (keysOf (updateKey m.objects name
          { o with streaming := false })).Nodup := by
        rw [keysOf_updateKey]; exact hn
      split
      · split
        · exact ⟨hnd, fun h2 => ho (any_streaming_updateKey_stop h2),
            fun h2 => hs (any_streaming_updateKey_stop h2)⟩
        · rename_i hany
          exact ⟨hnd, fun h2 => ho (any_streaming_updateKey_stop h2),
            fun h2 => absurd h2 hany⟩
      · split
        · exact ⟨hnd, fun h2 => ho (any_streaming_updateKey_stop h2),
            fun h2 => hs (any_streaming_updateKey_stop h2)⟩
        · rename_i hany
          exact ⟨hnd, fun h2 => absurd h2 hany,
            fun h2 => hs (any_streaming_updateKey_stop h2)⟩
    · rw [if_neg hstr]
      exact ⟨hn, ho, hs⟩

theorem managerInv_remove (m : OSCManager) (name : String)
    (h : managerInv m) : managerInv (remove_object m name).1 := by
  unfold remove_object
  cases hf : lookupKey m.objects name with
  | none => exact h
  | some o =>
    dsimp only
    by_cases hstr : o.streaming
    · rw [if_pos hstr]
      obtain ⟨hn, ho, hs⟩ := managerInv_stop m name h
      exact ⟨nodup_keys_eraseKey _ hn,
        fun h2 => ho (any_streaming_eraseKey h2),
        fun h2 => hs (any_streaming_eraseKey h2)⟩
    · rw [if_neg hstr]
      obtain ⟨hn, ho, hs⟩ := h
      exact ⟨nodup_keys_eraseKey _ hn,
        fun h2 => ho (any_streaming_eraseKey h2),
        fun h2 => hs (any_streaming_eraseKey h2)⟩

theorem nodup_keys_remove (m : OSCManager) (name : String)
    (hn : (keysOf m.objects).Nodup) :
    (keysOf (remove_object m name).1.objects).Nodup := by
  unfold remove_object
  cases hf : lookupKey m.objects name with
  | none => exact hn
  | some o =>
    dsimp only
    by_cases hstr : o.streaming
    · rw [if_pos hstr]
      exact nodup_keys_eraseKey _
        (by rw [keysOf_stop_objects]; exact hn)
    · rw [if_neg hstr]
      exact nodup_keys_eraseKey _ hn

theorem not_mem_keys_remove (m : OSCManager) (name : String) :
    name ∉ keysOf (remove_object m name).1.objects := by
  unfold remove_object
  cases hf : lookupKey m.objects name with
  | none => exact not_mem_keys_of_lookup_none hf
  | some o =>
    dsimp only
    by_cases hstr : o.streaming
    · rw [if_pos hstr]
      exact not_mem_keys_eraseKey _ _
    · rw [if_neg hstr]
      exact not_mem_keys_eraseKey _ _

theorem nodup_keys_append_single {α : Type} {l : List (String × α)}
    {k : String} {v : α} (hn : (keysOf l).Nodup) (hk : k ∉ keysOf l) :
    (keysOf (l ++ [(k, v)])).Nodup := by
  have : keysOf (l ++ [(k, v)]) = keysOf l ++ [k] := by
    simp [keysOf]
  rw [this, List.nodup_append]
  exact ⟨hn, List.nodup_singleton k,
    fun a ha hb => by simp at hb; exact hk (hb ▸ ha)⟩

theorem managerInv_add_osc (m : OSCManager) (name : String) (conn : Bool)
    (rmin rmax : ℚ) (h : managerInv m) :
    managerInv (add_osc_object m name conn rmin rmax).1 := by
  unfold add_osc_object
  by_cases hf : (lookupKey m.objects name).isSome
  · rw [if_pos hf]
    dsimp only
    obtain ⟨hn, ho, hs⟩ := managerInv_remove m name h
    refine ⟨nodup_keys_append_single hn (not_mem_keys_remove m name),
      fun _ => rfl, fun h2 => ?_⟩
    rw [any_streaming_append] at h2
    simp only [freshOSC, Bool.and_false, Bool.or_false] at h2
    exact hs h2
  · rw [if_neg hf]
    dsimp only
    obtain ⟨hn, ho, hs⟩ := h
    have hnm : name ∉ keysOf m.objects :=
      not_mem_keys_of_lookup_none (Option.not_isSome_iff_eq_none.mp hf)
    refine ⟨nodup_keys_append_single hn hnm, fun _ => rfl, fun h2 => ?_⟩
    rw [any_streaming_append] at h2
    simp only [freshOSC, Bool.and_false, Bool.or_false] at h2
    exact hs h2

theorem managerInv_add_serial (m : OSCManager) (name : String)
    (rmin rmax : ℚ) (h : managerInv m) :
    managerInv (add_serial_object m name rmin rmax).1 := by
  unfold add_serial_object
  by_cases hf : (lookupKey m.objects name).isSome
  · rw [if_pos hf]
    dsimp only
    obtain ⟨hn, ho, hs⟩ := managerInv_remove m name h
    refine ⟨nodup_keys_append_single hn (not_mem_keys_remove m name),
      fun h2 => ?_, fun _ => rfl⟩
    rw [any_streaming_append] at h2
    simp only [freshSerial, Bool.and_false, Bool.or_false] at h2
    exact ho h2
  · rw [if_neg hf]
    dsimp only
    obtain ⟨hn, ho, hs⟩ := h
    have hnm : name ∉ keysOf m.objects :=
      not_mem_keys_of_lookup_none (Option.not_isSome_iff_eq_none.mp hf)
    refine ⟨nodup_keys_append_single hn hnm, fun h2 => ?_, fun _ => rfl⟩
    rw [any_streaming_append] at h2
    simp only [freshSerial, Bool.and_false, Bool.or_false] at h2
    exact ho h2

theorem managerInv_enableStream (m : OSCManager) (name : String) (o : Sink)
    (evs : List Event) (h : managerInv m) :
    managerInv (enableStream m name o evs).1 := by
  obtain ⟨hn, ho, hs⟩ := h
  unfold enableStream
  by_cases hstr : o.streaming
  · rw [if_pos hstr]
    exact ⟨hn, ho, hs⟩
  · rw [if_neg hstr]
    dsimp only
    have hnd : (keysOf (updateKey m.objects name
        { o with streaming := true })).Nodup := by
      rw [keysOf_updateKey]; exact hn
    by_cases hser : o.isSerial
    · rw [if_pos hser]
      refine ⟨hnd, fun h2 => ?_, fun _ => rfl⟩
      refine ho (any_streaming_updateKey_false ?_ h2)
      simp [hser]
    · rw [if_neg hser]
      refine ⟨hnd, fun _ => rfl, fun h2 => ?_⟩
      refine hs (any_streaming_updateKey_false ?_ h2)
      simp only [Bool.not_eq_true] at hser
      simp [hser]

theorem managerInv_start (m : OSCManager) (name : String) (ok : Bool)
    (h : managerInv m) : managerInv (start_object_streaming m name ok).1 := by
  unfold start_object_streaming
  cases hf : lookupKey m.objects name with
  | none => exact h
  | some o =>
    dsimp only
    by_cases hco : (o.isSerial && !o.connected) = true
    · rw [if_pos hco]
      by_cases hok : ok = true
      · rw [if_pos hok]
        apply managerInv_enableStream
        obtain ⟨hn, ho, hs⟩ := h
        refine ⟨by rw [keysOf_updateKey]; exact hn, fun h2 => ?_,
          fun h2 => ?_⟩
        · exact ho (by
            rwa [@any_streaming_updateKey_congr false m.objects name o
              { o with connected := true } hn hf rfl] at h2)
        · exact hs (by
            rwa [@any_streaming_updateKey_congr true m.objects name o
              { o with connected := true } hn hf rfl] at h2)
      · rw [if_neg hok]
        exact h
    · rw [if_neg hco]
      exact managerInv_enableStream _ _ _ _ h

/-! ## Theorems: C2, C1, C9 -/

/-- C2 counterexample: adding a single OSC sink (reachable in one step from
the fresh manager) starts the OSC timer although no sink is streaming, so the
claimed "active iff some sink of the class is streaming" fails. -/
theorem C2_timer_iff_counterexample :
    MReachable c2AddedManager ∧ ¬ timer_iff_invariant c2AddedManager :=
  ⟨MReachable.step MReachable.init (MStep.addOSC "a" true 0 1), by decide⟩

/-- C2 (amended): in every reachable dispatcher state, if at least one sink
of a transport class has `streaming_enabled = true` then that class's timer
is active.  (The converse direction is false: `add_osc_object` /
`add_serial_object` start the class timer for a freshly added, non-streaming
sink.) -/
theorem C2_timer_streaming_invariant (m : OSCManager) (hr : MReachable m) :
    (any_streaming false m.objects = true → m.oscTimerActive = true) ∧
    (any_streaming true m.objects = true → m.serialTimerActive = true) := by
  have hinv : managerInv m := by
    induction hr with
    | init =>
      exact ⟨by simp [initManager, keysOf],
        by simp [initManager, any_streaming],
        by simp [initManager, any_streaming]⟩
    | @step m m' hr hstep ih =>
      cases hstep with
      | addOSC name conn rmin rmax =>
        exact managerInv_add_osc _ _ _ _ _ ih
      | addSerial name rmin rmax =>
        exact managerInv_add_serial _ _ _ _ ih
      | startStreaming name ok => exact managerInv_start _ _ _ ih
      | stopStreaming name => exact managerInv_stop _ _ ih
      | remove name => exact managerInv_remove _ _ ih
  exact ⟨hinv.2.1, hinv.2.2⟩

/-- Witness for the amended C2: a reachable manager with one streaming OSC
sink has its OSC timer active. -/
theorem C2_timer_streaming_invariant_witness :
    c2Manager.oscTimerActive = true :=
  (C2_timer_streaming_invariant c2Manager
    (MReachable.step
      (MReachable.step MReachable.init (MStep.addOSC "a" true 0 1))
      (MStep.startStreaming "a" true))).1 (by decide)

/-- C1: `stop_object_streaming` never transmits a frame — the zero-value
`send` is issued only after `streaming_enabled` was already cleared, so the
sink's `send` guard drops it; on the concrete streaming sink the full event
list of the stop call is just the state-changed signal. -/
theorem C1_zero_frame_never_transmitted :
    (stop_object_streaming c1Manager "a").2 =
      [Event.streamChanged "a" false] ∧
    ∀ (m : OSCManager) (name : String),
      ((stop_object_streaming m name).2.filter
        (fun e => isTransmitted e)) = [] := by
  constructor
  · decide
  · intro m name
    unfold stop_object_streaming
    cases hf : lookupKey m.objects name with
    | none => rfl
    | some o =>
      dsimp only
      by_cases hstr : o.streaming
      · rw [if_pos hstr]
        simp [sendSink, isTransmitted]
      · rw [if_neg hstr]
        rfl

/-- C9: adding a sink under an existing name factors as removal (stopping an
active stream and closing the transport) followed by registration of the
fresh sink; afterwards the name maps to the fresh sink and the key set stays
duplicate-free. -/
theorem C9_add_replaces_existing (m : OSCManager) (name : String) (o : Sink)
    (conn : Bool) (rmin rmax : ℚ) (hn : (keysOf m.objects).Nodup)
    (hf : lookupKey m.objects name = some o) :
    add_osc_object m name conn rmin rmax =
      ({ objects := (remove_object m name).1.objects ++
           [(name, freshOSC conn rmin rmax)],
         oscTimerActive := true,
         serialTimerActive := (remove_object m name).1.serialTimerActive },
       (remove_object m name).2) ∧
    add_serial_object m name rmin rmax =
      ({ objects := (remove_object m name).1.objects ++
           [(name, freshSerial rmin rmax)],
         oscTimerActive := (remove_object m name).1.oscTimerActive,
         serialTimerActive := true },
       (remove_object m name).2 ++ [Event.connChanged name false]) ∧
    Event.closedTransport name ∈ (remove_object m name).2 ∧
    (o.streaming = true →
      Event.streamChanged name false ∈ (remove_object m name).2) ∧
    lookupKey (add_osc_object m name conn rmin rmax).1.objects name =
      some (freshOSC conn rmin rmax) ∧
    (keysOf (add_osc_object m name conn rmin rmax).1.objects).Nodup ∧
    lookupKey (add_serial_object m name rmin rmax).1.objects name =
      some (freshSerial rmin rmax) := by
  have hfs : (lookupKey m.objects name).isSome = true := by rw [hf]; rfl
  have hosc : add_osc_object m name conn rmin rmax =
      ({ objects := (remove_object m name).1.objects ++
           [(name, freshOSC conn rmin rmax)],
         oscTimerActive := true,
         serialTimerActive := (remove_object m name).1.serialTimerActive },
       (remove_object m name).2) := by
    unfold add_osc_object
    rw [if_pos hfs]
  have hser : add_serial_object m name rmin rmax =
      ({ objects := (remove_object m name).1.objects ++
           [(name, freshSerial rmin rmax)],
         oscTimerActive := (remove_object m name).1.oscTimerActive,
         serialTimerActive := true },
       (remove_object m name).2 ++ [Event.connChanged name false]) := by
    unfold add_serial_object
    rw [if_pos hfs]
  have hlr : lookupKey (remove_object m name).1.objects name = none :=
    lookup_none_of_not_mem_keys (not_mem_keys_remove m name)
  have hclosed : Event.closedTransport name ∈ (remove_object m name).2 := by
    unfold remove_object
    rw [hf]
    dsimp only
    simp
  have hstopev : o.streaming = true →
      Event.streamChanged name false ∈ (remove_object m name).2 := by
    intro hstr
    unfold remove_object
    rw [hf]
    dsimp only
    rw [if_pos hstr]
    unfold stop_object_streaming
    rw [hf]
    dsimp only
    rw [if_pos hstr]
    simp
  refine ⟨hosc, hser, hclosed, hstopev, ?_, ?_, ?_⟩
  · rw [hosc]
    exact lookupKey_append_right _ hlr
  · rw [hosc]
    exact nodup_keys_append_single (nodup_keys_remove m name hn)
      (not_mem_keys_remove m name)
  · rw [hser]
    exact lookupKey_append_right _ hlr

/-- Witness for C9: the concrete manager with streaming sink `"a"`; replacing
it registers the fresh sink under `"a"` and the removal events include the
transport close and the stream-stop signal. -/
theorem C9_add_replaces_existing_witness :
    lookupKey (add_osc_object c9Manager "a" false 2 3).1.objects "a" =
      some (freshOSC false 2 3) ∧
    Event.closedTransport "a" ∈ (remove_object c9Manager "a").2 ∧
    Event.streamChanged "a" false ∈ (remove_object c9Manager "a").2 := by
  have h := C9_add_replaces_existing c9Manager "a"
    { isSerial := false, streaming := true, connected := true,
      remapMin := 0, remapMax := 1 } false 2 3 (by decide) (by decide)
  exact ⟨h.2.2.2.2.1, h.2.2.1, h.2.2.2.1 rfl⟩

end RedDust
